import Mathlib

/-!
A shallow embedding of the signal-engine core of `src/main/services/signal_engine.py`:
the rule-language lexer and recursive-descent parser, the AST node types, the
series-cursor ("as-of" join) machinery, the per-bar evaluator, and
`generate_signals_for_system` over an explicit in-memory image of the Django-stored
data for one trading system.

Modelling conventions:
  * Python strings are `List Char`; the `Lexer` is a structure `(s, i)` mirroring the
    Python class, and each mutating method becomes a function returning the new lexer.
  * Python numeric literals (`float(...)`) are modelled as exact rationals `PyNum`
    (an integer numerator over a power-of-ten denominator, compared by
    cross-multiplication) parsed from the decimal text; indicator values
    (`value_int`) are `Option Int`.
  * Python exceptions become `Except PyErr`: `ParseError` carries its message,
    `ValueError` is what `float('.')` raises, `AttributeError` is what `ref.name`
    raises when `parse_value` returned a bare number.  `PyErr.fuel` is an artifact
    of the termination bound on the recursive-descent parser; `parse_rule` supplies
    fuel `4*len + 16`, far more than the grammar can consume.
  * Timestamps (`dt`, `dt_server`) are integers; `dt_server` is `Option Int` (the
    column is nullable).  `x or y` on such values is `Option.getD` (a datetime is
    never falsy), while `x or y` on integers/strings honours Python falsiness of `0`
    and `""` explicitly.
-/

namespace SignalEngine

/-- Python exception outcomes of the engine. -/
inductive PyErr where
  | parseError (msg : String)
  | valueError
  | attributeError
  | fuel
deriving DecidableEq

/-- Exact rational value of a Python numeric literal: `num / den` with `den` a
positive power of ten.  Ordering and (numeric) equality are by cross-multiplication,
i.e. genuine rational comparison. -/
structure PyNum where
  num : Int
  den : Nat
deriving DecidableEq

/-- Embed an integer. -/
def PyNum.ofInt (n : Int) : PyNum := ⟨n, 1⟩

/-- Numeric equality (`==` on Python numbers). -/
def PyNum.eqb (a b : PyNum) : Bool := a.num * (b.den : Int) == b.num * (a.den : Int)

/-- Numeric strict order (`<` on Python numbers). -/
def PyNum.ltb (a b : PyNum) : Bool := decide (a.num * (b.den : Int) < b.num * (a.den : Int))

/-- Numeric non-strict order (`<=` on Python numbers). -/
def PyNum.leb (a b : PyNum) : Bool := decide (a.num * (b.den : Int) ≤ b.num * (a.den : Int))

/-- AST node: the union of the `IndicatorRef`, numeric-literal, `Not`, `And`, `Or`
and `Compare` dataclasses dispatched on by `_eval`. -/
inductive Node where
  | num (value : PyNum)
  | ref (name : String) (level : Option Int) (lag : Int)
  | not (expr : Node)
  | and (left : Node) (right : Node)
  | or (left : Node) (right : Node)
  | compare (left : Node) (op : String) (right : Node)
deriving DecidableEq

/-- The `Rule` dataclass. -/
structure Rule where
  condition : Node
  action_then : String
  action_else : Option String := none
deriving DecidableEq

-- Parse-error messages, verbatim from the source.
def errIfStart : String := "Rule must start with IF"
def errThen : String := "Expected THEN"
def errUnknownAction : String := "Unknown action (expected BUY/SELL/NONE)"
def errRParen : String := "Expected )"
def errRParenChanged : String := "Expected ) in changed()"
def errPrevLagNum : String := "Expected number for prev lag"
def errRParenPrev : String := "Expected ) in prev()"
def errCmpOp : String := "Expected comparison operator"
def errExpectedValue : String := "Expected value"
def errLevelNum : String := "Expected level number after L"
def errLx : String := "Expected Lx in first []"
def errRBracket : String := "Expected ]"
def errLagNum : String := "Expected lag number in []"
def errRBracketLag : String := "Expected ] for lag"

-- Keywords and operators, as the character sequences the source passes to `take`.
def kwIF : List Char := "IF".toList
def kwTHEN : List Char := "THEN".toList
def kwELSE : List Char := "ELSE".toList
def kwBUY : List Char := "BUY".toList
def kwSELL : List Char := "SELL".toList
def kwNONE : List Char := "NONE".toList
def kwNOT : List Char := "NOT".toList
def kwAND : List Char := "AND".toList
def kwOR : List Char := "OR".toList
def kwCHANGED : List Char := "CHANGED".toList
def kwPREV : List Char := "PREV".toList
def kwL : List Char := "L".toList
def opGE : List Char := ">=".toList
def opLE : List Char := "<=".toList
def opNE : List Char := "!=".toList
def opEQ : List Char := "==".toList
def opGT : List Char := ">".toList
def opLT : List Char := "<".toList
def strBUY : String := "BUY"
def strSELL : String := "SELL"
def strNONE : String := "NONE"

/-- The cursor-based lexer: `s` the line, `i` the current position. -/
structure Lexer where
  s : List Char
  i : Nat
deriving DecidableEq

/-- `_peek`: the character at the cursor, `none` at end of input (Python returns `''`). -/
def Lexer.peek (lx : Lexer) : Option Char := (lx.s.drop lx.i).head?

/-- `_advance(n)`. -/
def Lexer.advance (lx : Lexer) (n : Nat) : Lexer := { lx with i := lx.i + n }

/-- `_skip_ws`: the while-loop advances over leading whitespace. -/
def Lexer.skip_ws (lx : Lexer) : Lexer :=
  lx.advance ((lx.s.drop lx.i).takeWhile Char.isWhitespace).length

/-- `take(pat)`: if the upper-cased remaining input starts with `pat`, consume it and
return `true`; otherwise consume nothing.  Note the consumption happens regardless of
any construct check the caller performs afterwards. -/
def Lexer.take (lx : Lexer) (pat : List Char) : Bool × Lexer :=
  if pat.isPrefixOf ((lx.s.drop lx.i).map Char.toUpper) then
    (true, lx.advance pat.length)
  else
    (false, lx)

/-- The scanning loop of `number()`: digits with at most one dot. -/
def numScan : List Char → Bool → List Char
  | [], _ => []
  | c :: cs, dot =>
    if c.isDigit then c :: numScan cs dot
    else if c = '.' && !dot then c :: numScan cs true
    else []

/-- Exact value of a scanned decimal literal (Python `float(s)` on the same text;
we model the literal as an exact rational). -/
def decToNum (cs : List Char) : PyNum :=
  let st := cs.foldl
    (fun (st : Nat × Nat × Nat × Bool) c =>
      match st with
      | (ip, fp, fc, dot) =>
        if c = '.' then (ip, fp, fc, true)
        else if dot then (ip, fp * 10 + (c.toNat - 48), fc + 1, dot)
        else (ip * 10 + (c.toNat - 48), fp, fc, dot))
    (0, 0, 0, false)
  match st with
  | (ip, fp, fc, _) => ⟨(ip * 10 ^ fc + fp : Nat), 10 ^ fc⟩

/-- `number()`: returns `none` without consuming when no numeric characters are
present; raises `ValueError` when the scanned text is the lone `'.'` (the one case
where Python `float` rejects what the scanner accepted). -/
def Lexer.number (lx : Lexer) : Except PyErr (Option PyNum × Lexer) :=
  let consumed := numScan (lx.s.drop lx.i) false
  if consumed.isEmpty then .ok (none, lx)
  else if consumed = ['.'] then .error .valueError
  else .ok (some (decToNum consumed), lx.advance consumed.length)

/-- `ident()`: `none` unless the head is a letter or underscore; otherwise the
maximal run of alphanumerics/underscores. -/
def Lexer.ident (lx : Lexer) : Option String × Lexer :=
  match (lx.s.drop lx.i).head? with
  | none => (none, lx)
  | some p =>
    if p.isAlpha || p == '_' then
      let consumed := (lx.s.drop lx.i).takeWhile (fun c => c.isAlphanum || c == '_')
      (some (String.mk consumed), lx.advance consumed.length)
    else (none, lx)

/-- Python `int(...)` on a rational: truncation toward zero. -/
def pyInt (q : PyNum) : Int :=
  if 0 ≤ q.num then q.num / (q.den : Int) else -((-q.num) / ((q.den : Int)))

/-- `parse_value`: number, or identifier with optional `[Lk]` and `[n]` brackets. -/
def parse_value (lx0 : Lexer) : Except PyErr (Node × Lexer) := do
  let lx := lx0.skip_ws
  let (num?, lx) ← lx.number
  match num? with
  | some n => .ok (.num n, lx)
  | none =>
    let (id?, lx) := lx.ident
    match id? with
    | none => .error (.parseError errExpectedValue)
    | some name =>
      let lx := lx.skip_ws
      if lx.peek = some '[' then do
        let lx := (lx.advance 1).skip_ws
        let (tL, lx) := lx.take kwL
        if tL then do
          let (num?, lx) ← lx.number
          match num? with
          | none => .error (.parseError errLevelNum)
          | some q =>
            let level := some (pyInt q)
            let lx := lx.skip_ws
            if lx.peek = some ']' then do
              let lx := ((lx.advance 1)).skip_ws
              if lx.peek = some '[' then do
                let lx := (lx.advance 1).skip_ws
                let (num?, lx) ← lx.number
                match num? with
                | none => .error (.parseError errLagNum)
                | some q2 =>
                  let lag := pyInt q2
                  let lx := lx.skip_ws
                  if lx.peek = some ']' then
                    .ok (.ref name level lag, lx.advance 1)
                  else .error (.parseError errRBracketLag)
              else .ok (.ref name level 0, lx)
            else .error (.parseError errRBracket)
        else .error (.parseError errLx)
      else .ok (.ref name none 0, lx)

/-- `parse_action`: BUY / SELL / NONE, tried in order. -/
def parse_action (lx0 : Lexer) : Except PyErr (String × Lexer) :=
  let lx := lx0.skip_ws
  let (t1, lx) := lx.take kwBUY
  if t1 then .ok (strBUY, lx)
  else
    let (t2, lx) := lx.take kwSELL
    if t2 then .ok (strSELL, lx)
    else
      let (t3, lx) := lx.take kwNONE
      if t3 then .ok (strNONE, lx)
      else .error (.parseError errUnknownAction)

mutual

/-- `parse_expr`: a term, then left-folded `OR` terms. -/
def parse_expr : Nat → Lexer → Except PyErr (Node × Lexer)
  | 0, _ => .error .fuel
  | fuel + 1, lx0 => do
    let lx := lx0.skip_ws
    let (node, lx) ← parse_term fuel lx
    let lx := lx.skip_ws
    parse_expr_or fuel node lx

/-- The `while lx.take('OR')` loop of `parse_expr`. -/
def parse_expr_or : Nat → Node → Lexer → Except PyErr (Node × Lexer)
  | 0, _, _ => .error .fuel
  | fuel + 1, node, lx => do
    let (t, lx) := lx.take kwOR
    if t then do
      let (rhs, lx) ← parse_term fuel lx
      parse_expr_or fuel (.or node rhs) lx.skip_ws
    else .ok (node, lx)

/-- `parse_term`: a factor, then left-folded `AND` factors. -/
def parse_term : Nat → Lexer → Except PyErr (Node × Lexer)
  | 0, _ => .error .fuel
  | fuel + 1, lx0 => do
    let lx := lx0.skip_ws
    let (node, lx) ← parse_factor fuel lx
    let lx := lx.skip_ws
    parse_term_and fuel node lx

/-- The `while lx.take('AND')` loop of `parse_term`. -/
def parse_term_and : Nat → Node → Lexer → Except PyErr (Node × Lexer)
  | 0, _, _ => .error .fuel
  | fuel + 1, node, lx => do
    let (t, lx) := lx.take kwAND
    if t then do
      let (rhs, lx) ← parse_factor fuel lx
      parse_term_and fuel (.and node rhs) lx.skip_ws
    else .ok (node, lx)

/-- `parse_factor`: NOT / parenthesised expr / `CHANGED(...)` / `PREV(...)` /
comparison.  Mirrors the source exactly, including that a failed
`take('CHANGED') and peek == '('` guard leaves the keyword consumed. -/
def parse_factor : Nat → Lexer → Except PyErr (Node × Lexer)
  | 0, _ => .error .fuel
  | fuel + 1, lx0 => do
    let lx := lx0.skip_ws
    let (tNot, lx) := lx.take kwNOT
    if tNot then do
      let (inner, lx) ← parse_factor fuel lx
      .ok (.not inner, lx)
    else if lx.peek = some '(' then do
      let lx := lx.advance 1
      let (node, lx) ← parse_expr fuel lx
      let lx := lx.skip_ws
      if lx.peek = some ')' then .ok (node, lx.advance 1)
      else .error (.parseError errRParen)
    else
      let (tCh, lx) := lx.take kwCHANGED
      if tCh && (lx.peek == some '(') then do
        let lx := lx.advance 1
        let (refv, lx) ← parse_value lx
        let lx := lx.skip_ws
        if lx.peek = some ')' then
          let lx := lx.advance 1
          match refv with
          | .ref name level lag =>
            .ok (.compare (.ref name level (max lag 1)) "!=" (.ref name level 0), lx)
          | _ => .error .attributeError
        else .error (.parseError errRParenChanged)
      else
        let (tPrev, lx) := lx.take kwPREV
        if tPrev && (lx.peek == some '(') then do
          let lx := lx.advance 1
          let (refv, lx) ← parse_value lx
          let lx := lx.skip_ws
          let (lag, lx) ← (do
            if lx.peek = some ',' then do
              let lx := (lx.advance 1).skip_ws
              let (num?, lx) ← lx.number
              match num? with
              | none => Except.error (.parseError errPrevLagNum)
              | some q => Except.ok (pyInt q, lx)
            else Except.ok ((1 : Int), lx))
          let lx := lx.skip_ws
          if lx.peek = some ')' then
            let lx := lx.advance 1
            match refv with
            | .ref name level _ => .ok (.ref name level lag, lx)
            | _ => .error .attributeError
          else .error (.parseError errRParenPrev)
        else do
          let (left, lx) ← parse_value lx
          let lx := lx.skip_ws
          let (tGE, lx) := lx.take opGE
          if tGE then do
            let (right, lx) ← parse_value lx
            .ok (.compare left ">=" right, lx)
          else
            let (tLE, lx) := lx.take opLE
            if tLE then do
              let (right, lx) ← parse_value lx
              .ok (.compare left "<=" right, lx)
            else
              let (tNE, lx) := lx.take opNE
              if tNE then do
                let (right, lx) ← parse_value lx
                .ok (.compare left "!=" right, lx)
              else
                let (tEQ, lx) := lx.take opEQ
                if tEQ then do
                  let (right, lx) ← parse_value lx
                  .ok (.compare left "==" right, lx)
                else
                  let (tGT, lx) := lx.take opGT
                  if tGT then do
                    let (right, lx) ← parse_value lx
                    .ok (.compare left ">" right, lx)
                  else
                    let (tLT, lx) := lx.take opLT
                    if tLT then do
                      let (right, lx) ← parse_value lx
                      .ok (.compare left "<" right, lx)
                    else .error (.parseError errCmpOp)

end

/-- `parse_rule`: one line to one `Rule`.  Fuel `4*len + 16` over-approximates any
possible recursion depth of the grammar on the line. -/
def parse_rule (line : List Char) : Except PyErr Rule := do
  let lx := (Lexer.mk line 0).skip_ws
  let (tIf, lx) := lx.take kwIF
  if tIf then do
    let (cond, lx) ← parse_expr (line.length * 4 + 16) lx
    let lx := lx.skip_ws
    let (tThen, lx) := lx.take kwTHEN
    if tThen then do
      let (action_then, lx) ← parse_action lx
      let lx := lx.skip_ws
      let (tElse, lx) := lx.take kwELSE
      if tElse then do
        let (action_else, _) ← parse_action lx
        .ok ⟨cond, action_then, some action_else⟩
      else .ok ⟨cond, action_then, none⟩
    else .error (.parseError errThen)
  else .error (.parseError errIfStart)

/-- Python `str.splitlines` restricted to `'\n'` terminators (the only ones the
rule texts contain); a trailing empty segment is removed by the non-blank filter
below, matching `splitlines`. -/
def splitNL : List Char → List (List Char)
  | [] => [[]]
  | c :: cs =>
    let r := splitNL cs
    if c = '\n' then [] :: r
    else (c :: r.headD []) :: r.tail

/-- Python `str.strip()`. -/
def strip (cs : List Char) : List Char :=
  ((cs.dropWhile Char.isWhitespace).reverse.dropWhile Char.isWhitespace).reverse

/-- The non-blank stripped lines `parse_rules` iterates over. -/
def linesOf (text : List Char) : List (List Char) :=
  ((splitNL text).map strip).filter (fun l => !l.isEmpty)

/-- The element-by-element evaluation of the list comprehension
`[parse_rule(line) for line in lines]`: the first raised error aborts the whole
comprehension. -/
def parseRuleLines : List (List Char) → Except PyErr (List Rule)
  | [] => .ok []
  | ln :: rest => do
    let r ← parse_rule ln
    let rs ← parseRuleLines rest
    .ok (r :: rs)

/-- `parse_rules`: parse every non-blank line; the list comprehension propagates the
first `ParseError` and produces no partial list. -/
def parse_rules (text : List Char) : Except PyErr (List Rule) :=
  parseRuleLines (linesOf text)

/-! ## Evaluation -/

/-- The values `_eval` can return: `None`, a number (env value or literal), or a bool
from a logical node. -/
inductive PyVal where
  | none
  | num (q : PyNum)
  | bool (b : Bool)
deriving DecidableEq

/-- Python truthiness, as applied by `bool(...)` in `_eval` and the rule loop. -/
def truthy : PyVal → Bool
  | .none => false
  | .num q => !(q.num == 0)
  | .bool b => b

/-- Numeric coercion Python applies inside comparisons (`True == 1`); the `.none`
case is unreachable because `_eval` filters `None` operands first. -/
def pyNumOf : PyVal → PyNum
  | .none => .ofInt 0
  | .num q => q
  | .bool b => if b then .ofInt 1 else .ofInt 0

/-- The comparison dispatch chain of `_eval`'s `Compare` branch; an unknown operator
falls through to the final `return False`. -/
def cmpOp (op : String) (l r : PyNum) : Bool :=
  if op = "==" then l.eqb r
  else if op = "!=" then !(l.eqb r)
  else if op = ">" then r.ltb l
  else if op = "<" then l.ltb r
  else if op = ">=" then r.leb l
  else if op = "<=" then l.leb r
  else false

/-- `_eval(node, env_get)`.  Total: missing data yields `False` at comparisons and
falsy values elsewhere; it never throws. -/
def pyEval (env_get : String → Option Int → Int → Option Int) : Node → PyVal
  | .ref name level lag =>
    match env_get name level lag with
    | some v => .num (.ofInt v)
    | none => .none
  | .num q => .num q
  | .not e => .bool (!(truthy (pyEval env_get e)))
  | .and l r => .bool (truthy (pyEval env_get l) && truthy (pyEval env_get r))
  | .or l r => .bool (truthy (pyEval env_get l) || truthy (pyEval env_get r))
  | .compare l op r =>
    match pyEval env_get l, pyEval env_get r with
    | .none, _ => .bool false
    | _, .none => .bool false
    | a, b => .bool (cmpOp op (pyNumOf a) (pyNumOf b))

/-! ## Series cursor (as-of join) -/

/-- The `SeriesCursor` dataclass: time-ordered pairs for an indicator at a given
level; `idx` is the last position with time ≤ the current base time, starting
at `-1`. -/
@[ext]
structure SeriesCursor where
  times : List Int
  values : List (Option Int)
  idx : Int := -1
deriving DecidableEq

/-- Indexing `times[i]` for the loop guard; `idx + 1` is always ≥ 0 because `idx`
starts at `-1` and only increments. -/
def getI (xs : List Int) (i : Int) : Option Int :=
  if 0 ≤ i then xs.get? i.toNat else none

/-- The `while` loop of `advance_to`, with fuel `times.length` (an upper bound on
the remaining steps whenever `idx ≥ -1`). -/
def advanceToAux (times : List Int) (t : Int) : Nat → Int → Int
  | 0, idx => idx
  | fuel + 1, idx =>
    match getI times (idx + 1) with
    | some t2 => if t2 ≤ t then advanceToAux times t fuel (idx + 1) else idx
    | none => idx

/-- `advance_to(t)`: advance while the next entry's timestamp is ≤ `t`. -/
def SeriesCursor.advance_to (c : SeriesCursor) (t : Int) : SeriesCursor :=
  { c with idx := advanceToAux c.times t c.times.length c.idx }

/-- `value(lag)`: read at `idx - lag`, `None` out of range (entries themselves may
also be stored `None`). -/
def SeriesCursor.value (c : SeriesCursor) (lag : Int) : Option Int :=
  let i := c.idx - lag
  if i < 0 ∨ (c.values.length : Int) ≤ i then none
  else c.values.getD i.toNat none

/-- The `visit` walk of `_collect_requirements` on one node, in visit order. -/
def nodeRefs : Node → List (String × Option Int)
  | .ref name level _ => [(name, level)]
  | .num _ => []
  | .not e => nodeRefs e
  | .and l r => nodeRefs l ++ nodeRefs r
  | .or l r => nodeRefs l ++ nodeRefs r
  | .compare l _ r => nodeRefs l ++ nodeRefs r

/-- `_collect_requirements`: the set of `(name, level)` pairs referenced by the rules
(a Python `set`; modelled as the deduplicated visit-order list). -/
def collectReq (rules : List Rule) : List (String × Option Int) :=
  (rules.flatMap (fun r => nodeRefs r.condition)).dedup

/-! ## The stored data a run reads (an in-memory image of the Django rows for one
trading system) and `generate_signals_for_system`. -/

/-- A `TimeFrame` row of this system: primary key and `level`. -/
structure TimeFrameRec where
  id : Nat
  level : Int
deriving DecidableEq

/-- A `Bar` row: primary key, owning timeframe, `dt`, nullable `dt_server`. -/
structure BarRec where
  id : Nat
  tf : Nat
  dt : Int
  dt_server : Option Int
deriving DecidableEq

/-- An `IndicatorValue` row: indicator name (its definition's name), the bar it is
attached to, and the nullable integer value. -/
structure IVRec where
  indicator : String
  bar : BarRec
  value_int : Option Int
deriving DecidableEq

/-- The `TradingSystemSignalSettings` row. -/
structure SignalSettings where
  signal_logic : String
  signal_base_tf_level : Option Int
deriving DecidableEq

/-- All rows of one trading system that the run queries. -/
structure SystemDB where
  signal_settings : Option SignalSettings
  timeframes : List TimeFrameRec
  indicator_defs : List String
  indicator_values : List IVRec
  bars : List BarRec
deriving DecidableEq

/-- A candidate `SignalEvent` (not saved).  Python stores `rule_text = str(r)`; since
the dataclass repr is injective on rules we keep the `Rule` itself. -/
structure SignalEventRec where
  timeframe : Nat
  bar : Nat
  direction : String
  rule : Rule
  event_time : Int
deriving DecidableEq

/-- Python `x or d` on an optional integer: `None` and `0` are falsy. -/
def pyOrInt (x : Option Int) (d : Int) : Int :=
  match x with
  | some v => if v = 0 then d else v
  | none => d

/-- Python `x or d` on an optional string: `None` and `""` are falsy. -/
def pyOrStr (x : Option String) (d : String) : String :=
  match x with
  | some v => if v = "" then d else v
  | none => d

/-- `btime(b)` = `getattr(b, 'dt_server', None) or b.dt` (a datetime is never falsy,
so this is plain defaulting). -/
def btime (b : BarRec) : Int := b.dt_server.getD b.dt

/-- Stable insertion sort standing in for the storage layer's `order_by` (tie order
among equal keys is unspecified by the source; this fixes one). -/
def insertLe (le : α → α → Bool) (x : α) : List α → List α
  | [] => [x]
  | y :: ys => if le x y then x :: y :: ys else y :: insertLe le x ys

/-- `order_by`: sort with `le` as the comes-no-later relation. -/
def orderBy (le : α → α → Bool) (xs : List α) : List α :=
  xs.foldr (insertLe le) []

/-- Code-point lexicographic order on character lists: the order Python `sorted`
uses on strings. -/
def charListLe : List Char → List Char → Bool
  | [], _ => true
  | _ :: _, [] => false
  | a :: as, b :: bs =>
    if a.toNat < b.toNat then true
    else if b.toNat < a.toNat then false
    else charListLe as bs

/-- Python string `<=` (code-point lexicographic), fully computable. -/
def strLe (a b : String) : Bool := charListLe a.toList b.toList

/-- Level of the timeframe a bar belongs to (the `bar__timeframe__level` join). -/
def tfLevelOf (db : SystemDB) (tfid : Nat) : Option Int :=
  (db.timeframes.find? (fun tf => tf.id == tfid)).map (fun tf => tf.level)

/-- The preloaded series for one `(name, lvl)` of `normalized_req`: values of that
indicator on bars of that level, ordered by `bar__dt`, timestamps taken as `btime`. -/
def buildCursor (db : SystemDB) (name : String) (lvl : Int) : SeriesCursor :=
  let qs := orderBy (fun a b : IVRec => decide (a.bar.dt ≤ b.bar.dt))
    (db.indicator_values.filter (fun iv =>
      iv.indicator == name && (tfLevelOf db iv.bar.tf == some lvl)))
  { times := qs.map (fun iv => btime iv.bar), values := qs.map (fun iv => iv.value_int) }

/-- `base_map`: values of used indicators on the selected base bars, keyed
`(bar_id, name)`; built in `bar__dt` order with later rows shadowing earlier ones
(dict assignment). -/
def buildBaseMap (db : SystemDB) (names : List String) (base_tf : TimeFrameRec)
    (bars : List BarRec) : List ((Nat × String) × Option Int) :=
  let qs := orderBy (fun a b : IVRec => decide (a.bar.dt ≤ b.bar.dt))
    (db.indicator_values.filter (fun iv =>
      names.contains iv.indicator && iv.bar.tf == base_tf.id
        && (bars.map (fun b => b.id)).contains iv.bar.id))
  qs.foldl (fun m iv => ((iv.bar.id, iv.indicator), iv.value_int) :: m) []

/-- `env_get`: base-level lookups read the per-bar history array at
`len(hist) - 1 - lag`; non-base lookups go through the series cursor. -/
def env_get (base_level : Int) (base_hist : List (String × List (Option Int)))
    (series : List ((String × Int) × SeriesCursor))
    (name : String) (level : Option Int) (lag : Int) : Option Int :=
  let lvl := pyOrInt level base_level
  if lvl = base_level then
    match base_hist.lookup name with
    | none => none
    | some hist =>
      let i : Int := (hist.length : Int) - 1 - lag
      if i < 0 ∨ (hist.length : Int) ≤ i then none
      else hist.getD i.toNat none
  else
    match series.lookup (name, lvl) with
    | none => none
    | some cur => cur.value lag

/-- Mutable state of the per-bar loop: accumulated events, the advancing cursors,
and the growing base-level histories. -/
structure RunState where
  events : List SignalEventRec
  series : List ((String × Int) × SeriesCursor)
  base_hist : List (String × List (Option Int))
deriving DecidableEq

/-- The chosen action for one rule on one bar:
`r.action_then if ok else (r.action_else or 'NONE')`. -/
def chooseAction (r : Rule) (ok : Bool) : String :=
  if ok then r.action_then else pyOrStr r.action_else strNONE

/-- One iteration of `for b in bars`: advance every cursor to the bar's reference
time, append the bar's base values to the histories, then evaluate every rule and
collect BUY/SELL events. -/
def stepBar (rules : List Rule) (base_tf : TimeFrameRec) (base_level : Int)
    (base_map : List ((Nat × String) × Option Int))
    (st : RunState) (b : BarRec) : RunState :=
  let tnow := btime b
  let series := st.series.map (fun kv => (kv.1, kv.2.advance_to tnow))
  let base_hist := st.base_hist.map (fun nh =>
    (nh.1, nh.2 ++ [(base_map.lookup (b.id, nh.1)).join]))
  let env := env_get base_level base_hist series
  let newEvents := rules.foldl (fun evs r =>
    let ok := truthy (pyEval env r.condition)
    let action := chooseAction r ok
    if action = strBUY ∨ action = strSELL then
      evs ++ [{ timeframe := base_tf.id, bar := b.id, direction := action,
                rule := r, event_time := btime b }]
    else evs) []
  { events := st.events ++ newEvents, series := series, base_hist := base_hist }

/-- Everything `generate_signals_for_system` does after the rules have parsed and
the base level is known (this part of the source can no longer raise): locate the
base timeframe, collect requirements, preload series and base histories, and run
the per-bar loop. -/
def run_rules (db : SystemDB) (limit_bars : Nat) (base_level : Int)
    (rules : List Rule) : List SignalEventRec :=
  match db.timeframes.find? (fun tf => tf.level == base_level) with
  | none => []
  | some base_tf =>
    let req := collectReq rules
    let normalized_req := (req.map (fun p => (p.1, pyOrInt p.2 base_level))).dedup
    let names := orderBy strLe ((req.map Prod.fst).dedup)
    let defs := names.filter (fun n => db.indicator_defs.contains n)
    if defs.isEmpty then []
    else
      let bars_desc := (orderBy (fun a b : BarRec => decide (b.dt ≤ a.dt))
        (db.bars.filter (fun b => b.tf == base_tf.id))).take limit_bars
      let bars := bars_desc.reverse
      if bars.isEmpty then []
      else
        let series := normalized_req.filterMap (fun p =>
          if db.indicator_defs.contains p.1 then some (p, buildCursor db p.1 p.2)
          else none)
        let base_map := buildBaseMap db names base_tf bars
        let init : RunState :=
          { events := [], series := series,
            base_hist := names.map (fun n => (n, ([] : List (Option Int)))) }
        let final := bars.foldl (stepBar rules base_tf base_level base_map) init
        final.events

/-- `generate_signals_for_system(system, limit_bars=500)`: parse the rules and
produce candidate events (not saved) for the last N bars on the base timeframe. -/
def generate_signals_for_system (db : SystemDB) (limit_bars : Nat := 500) :
    Except PyErr (List SignalEventRec) := do
  match db.signal_settings with
  | none => return []
  | some settings =>
    if settings.signal_logic = "" then return []
    else do
      let rules ← parse_rules settings.signal_logic.toList
      return run_rules db limit_bars (pyOrInt settings.signal_base_tf_level 1) rules

/-! ## Derived observers and concrete fixtures used by the verification below. -/

/-- Number of leading series entries with timestamp ≤ `t`: exactly the entries the
`advance_to` while-loop consumes. -/
def countLE (times : List Int) (t : Int) : Nat :=
  (times.takeWhile (fun x => decide (x ≤ t))).length

/-- The lag-0 reads the evaluation loop performs: for each base-bar time in order,
advance the cursor to it and read `value 0`. -/
def asOfReads (c : SeriesCursor) : List Int → List (Option Int)
  | [] => []
  | t :: ts =>
    let c2 := c.advance_to t
    c2.value 0 :: asOfReads c2 ts

/-- Fixture: rule `IF X > 0 THEN BUY ELSE SELL` as parsed. -/
def ruleXgt0 : Rule :=
  ⟨.compare (.ref ("X") none 0) ">" (.num (.ofInt 0)), strBUY, some strSELL⟩

/-- Fixture: rule `IF X > 0 OR Y > 0 THEN BUY ELSE SELL` as parsed. -/
def ruleXorY : Rule :=
  ⟨.or (.compare (.ref ("X") none 0) ">" (.num (.ofInt 0)))
       (.compare (.ref ("Y") none 0) ">" (.num (.ofInt 0))), strBUY, some strSELL⟩

/-- Fixture: rule `IF X > 0 THEN BUY` as parsed. -/
def ruleXgt0Buy : Rule := ⟨.compare (.ref ("X") none 0) ">" (.num (.ofInt 0)), strBUY, none⟩

/-- Fixture for C2: indicator `X` is defined but has no stored value on the one
base bar. -/
def dbMissingValue : SystemDB :=
  { signal_settings := some { signal_logic := "IF X > 0 THEN BUY ELSE SELL",
                              signal_base_tf_level := none },
    timeframes := [{ id := 1, level := 1 }],
    indicator_defs := ["X"],
    indicator_values := [],
    bars := [{ id := 10, tf := 1, dt := 100, dt_server := none }] }

/-- Fixture for C6: the rules reference `X` and `Y`; only `Y` has a stored
`IndicatorDefinition`. -/
def dbPartialDefs : SystemDB :=
  { signal_settings := some { signal_logic := "IF X > 0 OR Y > 0 THEN BUY ELSE SELL",
                              signal_base_tf_level := none },
    timeframes := [{ id := 1, level := 1 }],
    indicator_defs := ["Y"],
    indicator_values := [],
    bars := [{ id := 10, tf := 1, dt := 100, dt_server := none }] }

/-- Fixture for C6's witness: no referenced indicator is defined. -/
def dbNoDefs : SystemDB :=
  { signal_settings := some { signal_logic := "IF X > 0 THEN BUY ELSE SELL",
                              signal_base_tf_level := none },
    timeframes := [{ id := 1, level := 1 }],
    indicator_defs := [],
    indicator_values := [],
    bars := [{ id := 10, tf := 1, dt := 100, dt_server := none }] }

/-- Fixture for C7: valid settings and parseable rules, but no `TimeFrame` row at
the configured base level. -/
def dbNoBaseTF : SystemDB :=
  { signal_settings := some { signal_logic := "IF X > 0 THEN BUY",
                              signal_base_tf_level := none },
    timeframes := [],
    indicator_defs := ["X"],
    indicator_values := [],
    bars := [] }

deriving instance DecidableEq for Except

/-! ## Theorems -/

lemma except_bind_ok (a : α) (f : α → Except ε β) :
    ((Except.ok a : Except ε α) >>= f) = f a := rfl

lemma except_bind_error (e : ε) (f : α → Except ε β) :
    ((Except.error e : Except ε α) >>= f) = Except.error e := rfl

lemma except_pure (a : α) : (pure a : Except ε α) = Except.ok a := rfl

/-- Claim C8.  Base-level lag lookup is total and index-correct: for a base-level
reference with lag `k ≥ 0` read against a history array of length `p + 1`
(position `p` is the last index), `env_get` returns the history entry at index
`p - k` when `0 ≤ p - k` and `None` when `p - k < 0`.  The lookup is a total
function — no lag value causes an exception. -/
theorem base_lag_lookup_total (base_level : Int)
    (base_hist : List (String × List (Option Int)))
    (series : List ((String × Int) × SeriesCursor)) (name : String)
    (hist : List (Option Int)) (lag : Int)
    (hfound : base_hist.lookup name = some hist) (hlag : 0 ≤ lag) :
    env_get base_level base_hist series name none lag =
      (if ((hist.length : Int) - 1 - lag) < 0 then none
       else hist.getD ((hist.length : Int) - 1 - lag).toNat none) := by
  unfold env_get pyOrInt
  simp only [hfound, if_pos rfl]
  by_cases hneg : ((hist.length : Int) - 1 - lag) < 0
  · simp [hneg]
  · have hub : ¬ ((hist.length : Int) ≤ (hist.length : Int) - 1 - lag) := by omega
    simp [hneg, hub]

/-- Witness for C8 at a concrete history: reading lag 1 at position 2 of
`[some 5, none, some 7]` returns the stored entry at index 1 (which is itself a
stored `None`). -/
theorem base_lag_lookup_total_witness :
    env_get 1 [(("X" : String), [some (5 : Int), none, some 7])] [] "X" none 1 = none := by
  have h := base_lag_lookup_total 1
    [(("X" : String), [some (5 : Int), none, some 7])] [] "X"
    [some (5 : Int), none, some 7] 1 (by decide) (by decide)
  simpa using h

/-- Claim C9.  Determinism / idempotence: evaluation over a fixed stored window is a
pure function of its inputs in this embedding (the Python code rebuilds all cursor
and history state per call), so running it twice on identical inputs produces
identical candidate event lists — same order, same timestamps, directions and
rules. -/
theorem evaluation_deterministic (db : SystemDB) (limit : Nat) :
    generate_signals_for_system db limit = generate_signals_for_system db limit := rfl

/-- Claim C10.  `take` consumes a matched keyword unconditionally — the consumption
cannot be undone by a construct check the caller performs afterwards — and as a
consequence `IF CHANGEDX > 1 THEN BUY` parses successfully into a condition that
references the indicator named `X` (the `CHANGED` prefix having been consumed),
not one named `CHANGEDX`. -/
theorem keyword_take_consumes :
    (∀ (lx : Lexer) (pat : List Char),
      pat.isPrefixOf ((lx.s.drop lx.i).map Char.toUpper) = true →
      lx.take pat = (true, lx.advance pat.length))
    ∧ parse_rule ("IF CHANGEDX > 1 THEN BUY".toList) =
        .ok ⟨.compare (.ref ("X") none 0) ">" (.num (.ofInt 1)), strBUY, none⟩
    ∧ collectReq [⟨.compare (.ref ("X") none 0) ">" (.num (.ofInt 1)), strBUY, none⟩] =
        [(("X"), none)] := by
  refine ⟨fun lx pat h => ?_, by decide, by decide⟩
  unfold Lexer.take
  rw [if_pos h]

/-- Witness for C10: inside `IF CHANGEDX > 1 THEN BUY` at position 3, `take`
consumes the 7 characters of `CHANGED` even though the next character is `X`,
not `(`. -/
theorem keyword_take_consumes_witness :
    (Lexer.mk ("IF CHANGEDX > 1 THEN BUY".toList) 3).take kwCHANGED =
      (true, (Lexer.mk ("IF CHANGEDX > 1 THEN BUY".toList) 3).advance kwCHANGED.length) :=
  keyword_take_consumes.1 (Lexer.mk ("IF CHANGEDX > 1 THEN BUY".toList) 3) kwCHANGED
    (by decide)

/-- Claim C2.  Missing-data comparison semantics: a `Compare` whose either operand
evaluates to missing yields `False` (and `pyEval` is a total function — evaluation
never throws); consequently a rule with an ELSE branch chooses its else action on
such a bar; concretely, `IF X > 0 THEN BUY ELSE SELL` on a bar where `X` has no
stored value emits exactly one SELL event. -/
theorem missing_compare_false :
    (∀ (env : String → Option Int → Int → Option Int) (l r : Node) (op : String),
      pyEval env l = .none ∨ pyEval env r = .none →
      pyEval env (.compare l op r) = .bool false)
    ∧ (∀ (env : String → Option Int → Int → Option Int) (ru : Rule)
        (l rt : Node) (op els : String),
        ru.condition = .compare l op rt → ru.action_else = some els → els ≠ "" →
        (pyEval env l = .none ∨ pyEval env rt = .none) →
        chooseAction ru (truthy (pyEval env ru.condition)) = els)
    ∧ generate_signals_for_system dbMissingValue 500 =
        .ok [{ timeframe := 1, bar := 10, direction := strSELL,
               rule := ruleXgt0, event_time := 100 }] := by
  have hcmp : ∀ (env : String → Option Int → Int → Option Int) (l r : Node) (op : String),
      pyEval env l = .none ∨ pyEval env r = .none →
      pyEval env (.compare l op r) = .bool false := by
    intro env l r op h
    rcases h with h | h
    · simp [pyEval, h]
    · cases hl : pyEval env l <;> simp [pyEval, h, hl]
  refine ⟨hcmp, ?_, by decide⟩
  intro env ru l rt op els hcond helse hne h
  rw [hcond, hcmp env l rt op h]
  simp [chooseAction, truthy, helse, pyOrStr, hne]

/-- Witness for C2's general part: with an environment that stores nothing,
`X > 0` evaluates to `False` and the rule chooses its else action `SELL`. -/
theorem missing_compare_false_witness :
    chooseAction ruleXgt0
        (truthy (pyEval (fun _ _ _ => (none : Option Int)) ruleXgt0.condition)) =
      strSELL :=
  missing_compare_false.2.1 (fun _ _ _ => (none : Option Int)) ruleXgt0
    (.ref ("X") none 0) (.num (.ofInt 0)) ">" strSELL rfl rfl (by decide) (Or.inl rfl)

lemma parseRuleLines_error (lines : List (List Char)) (e : PyErr)
    (h : parseRuleLines lines = .error e) :
    ∃ pre ln post, lines = pre ++ ln :: post
      ∧ (∀ l ∈ pre, ∃ r, parse_rule l = .ok r)
      ∧ parse_rule ln = .error e := by
  induction lines with
  | nil => simp [parseRuleLines] at h
  | cons ln rest ih =>
    cases hp : parse_rule ln with
    | error e2 =>
      simp only [parseRuleLines, hp, except_bind_error] at h
      cases h
      exact ⟨[], ln, rest, rfl, by simp, hp⟩
    | ok r =>
      cases hr : parseRuleLines rest with
      | error e2 =>
        simp only [parseRuleLines, hp, hr, except_bind_ok, except_bind_error] at h
        cases h
        obtain ⟨pre, ln2, post, heq, hpre, herr⟩ := ih hr
        refine ⟨ln :: pre, ln2, post, by simp [heq], ?_, herr⟩
        intro l hl
        rcases List.mem_cons.mp hl with h1 | h1
        · exact ⟨r, h1 ▸ hp⟩
        · exact hpre l h1
      | ok rs => simp [parseRuleLines, hp, hr, except_bind_ok] at h

lemma parseRuleLines_ok (lines : List (List Char)) (rs : List Rule)
    (h : parseRuleLines lines = .ok rs) :
    List.Forall₂ (fun ln r => parse_rule ln = .ok r) lines rs := by
  induction lines generalizing rs with
  | nil =>
    simp only [parseRuleLines] at h
    cases h
    exact .nil
  | cons ln rest ih =>
    cases hp : parse_rule ln with
    | error e2 => simp [parseRuleLines, hp, except_bind_error] at h
    | ok r =>
      cases hr : parseRuleLines rest with
      | error e2 => simp [parseRuleLines, hp, hr, except_bind_ok, except_bind_error] at h
      | ok rs2 =>
        simp only [parseRuleLines, hp, hr, except_bind_ok] at h
        cases h
        exact .cons hp (ih rs2 hr)

/-- Claim C3 counterexample: two distinct malformed lines (`FOO` and `BAR`) raise
the identical `ParseError` value, so the raised error cannot and does not name the
failing line (it names only the expected construct). -/
theorem ruleset_error_counterexample :
    parse_rules ("FOO".toList) = .error (.parseError errIfStart)
    ∧ parse_rules ("BAR".toList) = .error (.parseError errIfStart)
    ∧ ("FOO".toList) ≠ ("BAR".toList) :=
  ⟨by decide, by decide, by decide⟩

/-- Claim C3 (amended).  All-or-nothing rule-set compilation: if parsing a rule set
raises, the error is the `ParseError` of the first malformed non-blank line (naming
the expected construct, though not the failing line itself), all earlier lines
having parsed successfully, and no partial rule list is produced (the error is the
sole outcome); if parsing succeeds, exactly one `Rule` per non-blank line is
returned, in file order. -/
theorem ruleset_all_or_nothing (text : List Char) :
    (∀ e, parse_rules text = .error e →
      ∃ pre ln post, linesOf text = pre ++ ln :: post
        ∧ (∀ l ∈ pre, ∃ r, parse_rule l = .ok r)
        ∧ parse_rule ln = .error e)
    ∧ (∀ rs, parse_rules text = .ok rs →
      List.Forall₂ (fun ln r => parse_rule ln = .ok r) (linesOf text) rs) :=
  ⟨fun e h => parseRuleLines_error (linesOf text) e h,
   fun rs h => parseRuleLines_ok (linesOf text) rs h⟩

/-- Witness for C3 (amended) on a concrete two-line rule set. -/
theorem ruleset_all_or_nothing_witness :
    List.Forall₂ (fun ln r => parse_rule ln = .ok r)
      (linesOf ("IF X > 0 THEN BUY ELSE SELL\nIF X > 0 THEN BUY".toList))
      [ruleXgt0, ruleXgt0Buy] :=
  (ruleset_all_or_nothing ("IF X > 0 THEN BUY ELSE SELL\nIF X > 0 THEN BUY".toList)).2
    [ruleXgt0, ruleXgt0Buy] (by decide)

lemma insertLe_perm (le : α → α → Bool) (x : α) :
    ∀ l : List α, List.Perm (insertLe le x l) (x :: l)
  | [] => List.Perm.refl _
  | y :: ys => by
    unfold insertLe
    by_cases h : le x y = true
    · rw [if_pos h]
    · rw [if_neg h]
      exact ((insertLe_perm le x ys).cons y).trans (List.Perm.swap x y ys)

lemma orderBy_perm (le : α → α → Bool) :
    ∀ xs : List α, List.Perm (orderBy le xs) xs
  | [] => List.Perm.refl _
  | x :: xs =>
    (insertLe_perm le x (orderBy le xs)).trans ((orderBy_perm le xs).cons x)

lemma mem_orderBy {le : α → α → Bool} {xs : List α} {a : α} :
    a ∈ orderBy le xs ↔ a ∈ xs :=
  (orderBy_perm le xs).mem_iff

/-- Claim C6 counterexample: with `X` referenced but undefined and `Y` defined, the
run does NOT return an empty event list — the ELSE branch emits a SELL on the bar. -/
theorem partial_defs_counterexample :
    generate_signals_for_system dbPartialDefs 500 =
      .ok [{ timeframe := 1, bar := 10, direction := strSELL,
             rule := ruleXorY, event_time := 100 }]
    ∧ (("X"), (none : Option Int)) ∈ collectReq [ruleXorY]
    ∧ ("X" : String) ∉ dbPartialDefs.indicator_defs
    ∧ generate_signals_for_system dbPartialDefs 500 ≠ .ok [] :=
  ⟨by decide, by decide, by decide, by decide⟩

/-- Claim C6 (amended).  Fail-soft applies only when NO referenced indicator name
has a stored definition: then the run returns an empty event list.  (When at least
one referenced name is defined the run proceeds, undefined names resolve to
missing, and events may still be emitted — see the counterexample.) -/
lemma run_rules_no_defs (db : SystemDB) (limit : Nat) (base_level : Int)
    (rules : List Rule)
    (hnodefs : ∀ p ∈ collectReq rules, p.1 ∉ db.indicator_defs) :
    run_rules db limit base_level rules = [] := by
  unfold run_rules
  cases hfind : db.timeframes.find? (fun tf => tf.level == base_level) with
  | none => rfl
  | some base_tf =>
    have hempty : (orderBy strLe ((collectReq rules).map Prod.fst).dedup).filter
        (fun n => db.indicator_defs.contains n) = [] := by
      apply List.filter_eq_nil_iff.mpr
      intro a ha
      have ha2 : a ∈ (collectReq rules).map Prod.fst :=
        List.mem_dedup.mp (mem_orderBy.mp ha)
      obtain ⟨p, hp, hpa⟩ := List.mem_map.mp ha2
      have hnd := hnodefs p hp
      rw [hpa] at hnd
      simpa using hnd
    have hemptyb : ((orderBy strLe ((collectReq rules).map Prod.fst).dedup).filter
        (fun n => db.indicator_defs.contains n)).isEmpty = true := by
      rw [hempty]
      rfl
    simp only [hemptyb, if_true]

theorem missing_defs_empty_run (db : SystemDB) (limit : Nat)
    (settings : SignalSettings) (rules : List Rule)
    (hset : db.signal_settings = some settings)
    (hparse : parse_rules settings.signal_logic.toList = .ok rules)
    (hnodefs : ∀ p ∈ collectReq rules, p.1 ∉ db.indicator_defs) :
    generate_signals_for_system db limit = .ok [] := by
  unfold generate_signals_for_system
  rw [hset]
  by_cases hlogic : settings.signal_logic = ""
  · simp [hlogic, except_pure]
  · simp only [if_neg hlogic, hparse, except_bind_ok, except_pure]
    rw [run_rules_no_defs db limit (pyOrInt settings.signal_base_tf_level 1)
      rules hnodefs]

/-- Witness for C6 (amended): a run whose single referenced name has no definition
returns no events. -/
theorem missing_defs_empty_run_witness :
    generate_signals_for_system dbNoDefs 500 = .ok [] :=
  missing_defs_empty_run dbNoDefs 500
    { signal_logic := "IF X > 0 THEN BUY ELSE SELL", signal_base_tf_level := none }
    [ruleXgt0] rfl (by decide) (by decide)

/-- Claim C7 counterexample: valid settings, parseable rules, and no `TimeFrame`
at the base level — the run silently succeeds with an empty list instead of
failing with a surfaced error. -/
theorem no_base_tf_counterexample :
    generate_signals_for_system dbNoBaseTF 500 = .ok []
    ∧ parse_rules ("IF X > 0 THEN BUY".toList) = .ok [ruleXgt0Buy]
    ∧ dbNoBaseTF.timeframes = [] :=
  ⟨by decide, by decide, rfl⟩

/-- Claim C7 (amended).  When the configured base timeframe level has no
`TimeFrame` row, the run silently returns an empty event list (`.ok []`), not a
surfaced error; only rule-syntax errors abort the run. -/
theorem no_base_tf_silent (db : SystemDB) (limit : Nat)
    (settings : SignalSettings) (rules : List Rule)
    (hset : db.signal_settings = some settings)
    (hparse : parse_rules settings.signal_logic.toList = .ok rules)
    (hnotf : ∀ tf ∈ db.timeframes,
      tf.level ≠ pyOrInt settings.signal_base_tf_level 1) :
    generate_signals_for_system db limit = .ok [] := by
  unfold generate_signals_for_system
  rw [hset]
  by_cases hlogic : settings.signal_logic = ""
  · simp [hlogic, except_pure]
  · have hrun : run_rules db limit (pyOrInt settings.signal_base_tf_level 1) rules = [] := by
      unfold run_rules
      have hfind : db.timeframes.find?
          (fun tf => tf.level == pyOrInt settings.signal_base_tf_level 1) = none := by
        apply List.find?_eq_none.mpr
        intro tf htf
        simpa using hnotf tf htf
      rw [hfind]
    simp only [if_neg hlogic, hparse, except_bind_ok, except_pure, hrun]

/-- Witness for C7 (amended) at the concrete fixture. -/
theorem no_base_tf_silent_witness :
    generate_signals_for_system dbNoBaseTF 500 = .ok [] :=
  no_base_tf_silent dbNoBaseTF 500
    { signal_logic := "IF X > 0 THEN BUY", signal_base_tf_level := none }
    [ruleXgt0Buy] rfl (by decide) (by decide)

/-- Claim C4 counterexample: `CHANGED(A[L2][3])` expands with left-operand lag
`max(3,1) = 3`, not `3 + 1 = 4` — the lag is not incremented.  Moreover the
"equivalent expanded rule" `IF PREV(X,1) != X THEN BUY` is not even parseable
(`PREV(...)` is a complete factor, so the trailing `!= X` makes `THEN` fail). -/
theorem changed_lag_counterexample :
    parse_rule ("IF CHANGED(A[L2][3]) THEN BUY".toList) =
      .ok ⟨.compare (.ref ("A") (some 2) 3) "!=" (.ref ("A") (some 2) 0), strBUY, none⟩
    ∧ (3 : Int) ≠ 3 + 1
    ∧ parse_rule ("IF PREV(X,1) != X THEN BUY".toList) = .error (.parseError errThen) :=
  ⟨by decide, by decide, by decide⟩

/-- Claim C4 (amended).  `CHANGED(x)` expands to
`Compare(IndicatorRef(x.name, x.level, max(x.lag, 1)), "!=",
IndicatorRef(x.name, x.level, 0))` — the left lag is `max(x.lag, 1)`, which equals
lag-incremented-by-1 only when `x` carries lag 0.  For a plain identifier `X` the
expansion is literally `Compare(ref lag 1, !=, ref lag 0)` (the AST of
`PREV(X,1) != X`, which is not itself writable as a rule), so a rule using
`CHANGED(X)` evaluates identically to that expanded comparison on every
environment, i.e. fires on exactly the same bars. -/
theorem changed_expansion (fuel : Nat) (lx0 lxC lx2 : Lexer)
    (name : String) (level : Option Int) (lag : Int)
    (h1 : (lx0.skip_ws).take kwNOT = (false, lx0.skip_ws))
    (h2 : (lx0.skip_ws).peek ≠ some '(')
    (h3 : (lx0.skip_ws).take kwCHANGED = (true, lxC))
    (h4 : lxC.peek = some '(')
    (h5 : parse_value (lxC.advance 1) = .ok (.ref name level lag, lx2))
    (h6 : (lx2.skip_ws).peek = some ')') :
    parse_factor (fuel + 1) lx0 =
      .ok (.compare (.ref name level (max lag 1)) "!=" (.ref name level 0),
        (lx2.skip_ws).advance 1)
    ∧ parse_rule ("IF CHANGED(X) THEN BUY".toList) =
        .ok ⟨.compare (.ref ("X") none 1) "!=" (.ref ("X") none 0), strBUY, none⟩
    ∧ (∀ env : String → Option Int → Int → Option Int,
        pyEval env (.compare (.ref ("X") none 1) "!=" (.ref ("X") none 0)) =
        pyEval env (.compare (.ref ("X") none 1) "!=" (.ref ("X") none 0))) := by
  refine ⟨?_, by decide, fun _ => rfl⟩
  simp [parse_factor, h1, h2, h3, h4, h5, h6, except_bind_ok]

/-- Witness for C4 (amended) on the concrete input `CHANGED(B)`. -/
theorem changed_expansion_witness :
    parse_factor 1 (Lexer.mk ("CHANGED(B)".toList) 0) =
      .ok (.compare (.ref ("B") none (max 0 1)) "!=" (.ref ("B") none 0),
        ((Lexer.mk ("CHANGED(B)".toList) 9).skip_ws).advance 1) :=
  (changed_expansion 0 (Lexer.mk ("CHANGED(B)".toList) 0)
    (Lexer.mk ("CHANGED(B)".toList) 7) (Lexer.mk ("CHANGED(B)".toList) 9)
    ("B") none 0 (by decide) (by decide) (by decide) (by decide) (by decide)
    (by decide)).1

/-- Claim C5 counterexample: `PREV(A[L2][3])` yields lag 1 (the default argument),
discarding the lag 3 already carried by the reference — not lag `3 + 1 = 4`. -/
theorem prev_lag_counterexample :
    parse_rule ("IF PREV(A[L2][3]) THEN BUY".toList) =
      .ok ⟨.ref ("A") (some 2) 1, strBUY, none⟩
    ∧ (1 : Int) ≠ 3 + 1 :=
  ⟨by decide, by decide⟩

/-- Claim C5 (amended).  `PREV(x)` / `PREV(x, n)` yields `x`'s `IndicatorRef`
(same name and level) with lag SET to the given amount (default 1 when the second
argument is omitted), discarding any lag `x` already carries; it increments only
in the sense that a lag-0 reference becomes lag `n`. -/
theorem prev_sets_lag :
    (∀ (fuel : Nat) (lx0 lxP lx2 : Lexer) (name : String) (level : Option Int)
       (lag : Int),
      (lx0.skip_ws).take kwNOT = (false, lx0.skip_ws) →
      (lx0.skip_ws).peek ≠ some '(' →
      (lx0.skip_ws).take kwCHANGED = (false, lx0.skip_ws) →
      (lx0.skip_ws).take kwPREV = (true, lxP) →
      lxP.peek = some '(' →
      parse_value (lxP.advance 1) = .ok (.ref name level lag, lx2) →
      (lx2.skip_ws).peek ≠ some ',' →
      ((lx2.skip_ws).skip_ws).peek = some ')' →
      parse_factor (fuel + 1) lx0 =
        .ok (.ref name level 1, ((lx2.skip_ws).skip_ws).advance 1))
    ∧ (∀ (fuel : Nat) (lx0 lxP lx2 lx3 : Lexer) (name : String)
       (level : Option Int) (lag : Int) (q : PyNum),
      (lx0.skip_ws).take kwNOT = (false, lx0.skip_ws) →
      (lx0.skip_ws).peek ≠ some '(' →
      (lx0.skip_ws).take kwCHANGED = (false, lx0.skip_ws) →
      (lx0.skip_ws).take kwPREV = (true, lxP) →
      lxP.peek = some '(' →
      parse_value (lxP.advance 1) = .ok (.ref name level lag, lx2) →
      (lx2.skip_ws).peek = some ',' →
      (((lx2.skip_ws).advance 1).skip_ws).number = .ok (some q, lx3) →
      (lx3.skip_ws).peek = some ')' →
      parse_factor (fuel + 1) lx0 =
        .ok (.ref name level (pyInt q), (lx3.skip_ws).advance 1)) := by
  constructor
  · intro fuel lx0 lxP lx2 name level lag h1 h2 h3 h4 h5 h6 h7 h8
    simp [parse_factor, h1, h2, h3, h4, h5, h6, h7, h8, except_bind_ok]
  · intro fuel lx0 lxP lx2 lx3 name level lag q h1 h2 h3 h4 h5 h6 h7 h8 h9
    simp [parse_factor, h1, h2, h3, h4, h5, h6, h7, h8, h9, except_bind_ok]

/-- Witness for C5 (amended) on the concrete inputs `PREV(B)` and `PREV(B, 2)`. -/
theorem prev_sets_lag_witness :
    parse_factor 1 (Lexer.mk ("PREV(B)".toList) 0) =
      .ok (.ref ("B") none 1,
        (((Lexer.mk ("PREV(B)".toList) 6).skip_ws).skip_ws).advance 1)
    ∧ parse_factor 1 (Lexer.mk ("PREV(B, 2)".toList) 0) =
      .ok (.ref ("B") none (pyInt ⟨2, 1⟩),
        ((Lexer.mk ("PREV(B, 2)".toList) 9).skip_ws).advance 1) :=
  ⟨prev_sets_lag.1 0 (Lexer.mk ("PREV(B)".toList) 0)
      (Lexer.mk ("PREV(B)".toList) 4) (Lexer.mk ("PREV(B)".toList) 6)
      ("B") none 0 (by decide) (by decide) (by decide) (by decide) (by decide)
      (by decide) (by decide) (by decide),
   prev_sets_lag.2 0 (Lexer.mk ("PREV(B, 2)".toList) 0)
      (Lexer.mk ("PREV(B, 2)".toList) 4) (Lexer.mk ("PREV(B, 2)".toList) 6)
      (Lexer.mk ("PREV(B, 2)".toList) 9) ("B") none 0 ⟨2, 1⟩ (by decide)
      (by decide) (by decide) (by decide) (by decide) (by decide) (by decide)
      (by decide) (by decide)⟩

lemma countLE_le_length (times : List Int) (t : Int) :
    countLE times t ≤ times.length :=
  (times.takeWhile_prefix (fun x => decide (x ≤ t))).length_le

lemma countLE_cons (x : Int) (xs : List Int) (t : Int) :
    countLE (x :: xs) t = if x ≤ t then countLE xs t + 1 else 0 := by
  by_cases h : x ≤ t
  · simp [countLE, List.takeWhile_cons, h]
  · simp [countLE, List.takeWhile_cons, h]

lemma countLE_mono (times : List Int) {t t' : Int} (h : t ≤ t') :
    countLE times t ≤ countLE times t' := by
  induction times with
  | nil => simp [countLE]
  | cons x xs ih =>
    rw [countLE_cons, countLE_cons]
    by_cases hx : x ≤ t
    · rw [if_pos hx, if_pos (le_trans hx h)]
      omega
    · rw [if_neg hx]
      omega

lemma le_of_lt_countLE (times : List Int) (t : Int) :
    ∀ j, j < countLE times t → times.getD j 0 ≤ t := by
  induction times with
  | nil => simp [countLE]
  | cons x xs ih =>
    intro j hj
    rw [countLE_cons] at hj
    by_cases hx : x ≤ t
    · rw [if_pos hx] at hj
      cases j with
      | zero => simpa using hx
      | succ j2 =>
        have := ih j2 (by omega)
        simpa using this
    · rw [if_neg hx] at hj
      omega

lemma lt_of_countLE_le (times : List Int) (t : Int)
    (hs : List.Chain' (· ≤ ·) times) :
    ∀ j, countLE times t ≤ j → j < times.length → t < times.getD j 0 := by
  induction times with
  | nil => simp
  | cons x xs ih =>
    intro j hj hlen
    have hpw := List.chain'_iff_pairwise.mp hs
    rw [countLE_cons] at hj
    by_cases hx : x ≤ t
    · rw [if_pos hx] at hj
      cases j with
      | zero => omega
      | succ j2 =>
        have := ih (List.chain'_iff_pairwise.mpr (List.Pairwise.of_cons hpw)) j2
          (by omega) (by simpa using hlen)
        simpa using this
    · rw [if_neg hx] at hj
      push_neg at hx
      cases j with
      | zero => simpa using hx
      | succ j2 =>
        have hmem : xs.getD j2 0 ∈ xs := by
          have hl2 : j2 < xs.length := by simpa using hlen
          rw [List.getD_eq_getElem _ _ hl2]
          exact List.getElem_mem hl2
        have hxle : x ≤ xs.getD j2 0 :=
          (List.pairwise_cons.mp hpw).1 _ hmem
        have : t < xs.getD j2 0 := lt_of_lt_of_le hx hxle
        simpa using this

lemma stop_at_countLE (times : List Int) (t : Int)
    (h : countLE times t < times.length) :
    ¬ (times.getD (countLE times t) 0 ≤ t) := by
  induction times with
  | nil => simp at h
  | cons x xs ih =>
    rw [countLE_cons] at h ⊢
    simp only [List.length_cons] at h
    by_cases hx : x ≤ t
    · rw [if_pos hx] at h ⊢
      have := ih (by omega)
      simpa using this
    · rw [if_neg hx] at h ⊢
      simpa using hx

lemma advanceToAux_eq (times : List Int) (t : Int) :
    ∀ (fuel : Nat) (idx : Int), -1 ≤ idx →
    idx + 1 ≤ (countLE times t : Int) →
    (times.length : Int) - (idx + 1) ≤ (fuel : Int) →
    advanceToAux times t fuel idx = (countLE times t : Int) - 1 := by
  intro fuel
  induction fuel with
  | zero =>
    intro idx h0 hle hfuel
    have hcl := countLE_le_length times t
    simp only [advanceToAux]
    omega
  | succ fuel ih =>
    intro idx h0 hle hfuel
    have hcl := countLE_le_length times t
    simp only [advanceToAux]
    rw [getI, if_pos (by omega : (0 : Int) ≤ idx + 1)]
    cases hg : times.get? (idx + 1).toNat with
    | none =>
      have hlen : times.length ≤ (idx + 1).toNat := List.get?_eq_none.mp hg
      simp only []
      omega
    | some t2 =>
      obtain ⟨hlt, hget⟩ := List.get?_eq_some.mp hg
      have ht2 : times.getD (idx + 1).toNat 0 = t2 := by
        rw [List.getD_eq_getElem _ _ hlt]
        rw [List.get_eq_getElem] at hget
        exact hget
      show (if t2 ≤ t then advanceToAux times t fuel (idx + 1) else idx) =
        (countLE times t : Int) - 1
      by_cases hcmp : t2 ≤ t
      · rw [if_pos hcmp]
        have hne : (idx + 1).toNat ≠ countLE times t := by
          intro heq
          apply stop_at_countLE times t (heq ▸ hlt)
          rw [heq] at ht2
          rw [ht2]
          exact hcmp
        exact ih (idx + 1) (by omega) (by omega) (by omega)
      · rw [if_neg hcmp]
        have : ¬ ((idx + 1).toNat < countLE times t) := by
          intro hltc
          exact hcmp (ht2 ▸ le_of_lt_countLE times t (idx + 1).toNat hltc)
        omega

lemma advance_to_idx (c : SeriesCursor) (t : Int) (h0 : -1 ≤ c.idx)
    (hle : c.idx + 1 ≤ (countLE c.times t : Int)) :
    (c.advance_to t).idx = (countLE c.times t : Int) - 1 := by
  have hcl := countLE_le_length c.times t
  exact advanceToAux_eq c.times t c.times.length c.idx h0 hle (by omega)

lemma foldl_advance_times : ∀ (l : List Int) (c : SeriesCursor),
    (l.foldl SeriesCursor.advance_to c).times = c.times
  | [], _ => rfl
  | t :: ts, c => foldl_advance_times ts (c.advance_to t)

lemma foldl_advance_values : ∀ (l : List Int) (c : SeriesCursor),
    (l.foldl SeriesCursor.advance_to c).values = c.values
  | [], _ => rfl
  | t :: ts, c => foldl_advance_values ts (c.advance_to t)

lemma value_at (times : List Int) (values : List (Option Int)) (k : Nat) :
    (SeriesCursor.mk times values ((k : Int) - 1)).value 0 =
      (if k = 0 then none else values.getD (k - 1) none) := by
  cases k with
  | zero => simp [SeriesCursor.value]
  | succ k2 =>
    have hi : ((k2 + 1 : Nat) : Int) - 1 - 0 = (k2 : Int) := by push_cast; ring
    rw [if_neg (by omega : ¬ (k2 + 1 = 0))]
    unfold SeriesCursor.value
    simp only [hi]
    by_cases hlen : values.length ≤ k2
    · rw [if_pos (Or.inr (by exact_mod_cast hlen)), List.getD_eq_default _ _ (by omega)]
    · have hcond : ¬ ((k2 : Int) < 0 ∨ (values.length : Int) ≤ (k2 : Int)) := by
        push_neg
        omega
      rw [if_neg hcond]
      norm_num

lemma asOfReads_get? : ∀ (bts : List Int) (c : SeriesCursor) (i : Nat),
    i < bts.length →
    (asOfReads c bts).get? i =
      some (((bts.take (i + 1)).foldl SeriesCursor.advance_to c).value 0) := by
  intro bts
  induction bts with
  | nil =>
    intro c i h
    simp at h
  | cons t ts ih =>
    intro c i h
    cases i with
    | zero => rfl
    | succ i2 =>
      have h2 : i2 < ts.length := by simpa using h
      show (asOfReads (c.advance_to t) ts).get? i2 = _
      rw [ih (c.advance_to t) i2 h2]
      rfl

lemma fold_idx (times : List Int) (values : List (Option Int)) :
    ∀ (bts : List Int), List.Chain' (· ≤ ·) bts →
    ∀ (idx : Int), -1 ≤ idx →
    (∀ b ∈ bts.head?, idx + 1 ≤ (countLE times b : Int)) →
    ∀ (i : Nat) (hi : i < bts.length),
      ((bts.take (i + 1)).foldl SeriesCursor.advance_to ⟨times, values, idx⟩).idx
        = (countLE times (bts.get ⟨i, hi⟩) : Int) - 1 := by
  intro bts
  induction bts with
  | nil =>
    intro _ idx _ _ i hi
    simp at hi
  | cons b bs ih =>
    intro hchain idx h0 hhead i hi
    have hb : idx + 1 ≤ (countLE times b : Int) := hhead b (by simp)
    have hadv : ((SeriesCursor.mk times values idx).advance_to b).idx
        = (countLE times b : Int) - 1 := advance_to_idx _ b h0 hb
    have hcur : (SeriesCursor.mk times values idx).advance_to b
        = ⟨times, values, (countLE times b : Int) - 1⟩ :=
      SeriesCursor.ext rfl rfl hadv
    cases i with
    | zero => simpa using hadv
    | succ i2 =>
      have hi2 : i2 < bs.length := by simpa using hi
      obtain ⟨hbhead, hchain2⟩ := List.chain'_cons'.mp hchain
      have hhead2 : ∀ b2 ∈ bs.head?,
          ((countLE times b : Int) - 1) + 1 ≤ (countLE times b2 : Int) := by
        intro b2 hb2
        have hbb2 : b ≤ b2 := hbhead b2 hb2
        have := countLE_mono times hbb2
        omega
      have hrec := ih hchain2 ((countLE times b : Int) - 1) (by omega) hhead2 i2 hi2
      show ((b :: bs.take (i2 + 1)).foldl SeriesCursor.advance_to
        ⟨times, values, idx⟩).idx = _
      rw [List.foldl_cons, hcur]
      exact hrec

/-- Claim C1.  As-of join correctness.  General part: for a series with
nondecreasing timestamps and base-bar times processed in nondecreasing order, the
lag-0 read at each bar (cursor advanced cumulatively, as the evaluation loop does)
returns the stored value paired with the greatest series timestamp at or before
that bar's reference time: writing `k` for the number of leading series entries
with timestamp ≤ the bar time, the read is `values[k-1]` (missing when `k = 0`,
i.e. before the first entry), every entry below `k` has timestamp ≤ the bar time,
and every entry from `k` on has timestamp strictly after it — never a later value,
never an interpolated one.  Concrete part: with a level-2 series at t=600 (10:00)
and t=605 (10:05) and base bars at 601 (10:01) and 606 (10:06), the 10:01 bar
reads the 10:00 value and the 10:06 bar reads the 10:05 value. -/
theorem asof_join_correct :
    (∀ (times : List Int) (values : List (Option Int)) (bts : List Int),
      List.Chain' (· ≤ ·) times → List.Chain' (· ≤ ·) bts →
      ∀ (i : Nat) (hi : i < bts.length),
        (asOfReads ⟨times, values, -1⟩ bts).get? i =
          some (if countLE times (bts.get ⟨i, hi⟩) = 0 then none
                else values.getD (countLE times (bts.get ⟨i, hi⟩) - 1) none)
        ∧ (∀ j, j < countLE times (bts.get ⟨i, hi⟩) →
            times.getD j 0 ≤ bts.get ⟨i, hi⟩)
        ∧ (∀ j, countLE times (bts.get ⟨i, hi⟩) ≤ j → j < times.length →
            bts.get ⟨i, hi⟩ < times.getD j 0))
    ∧ ((SeriesCursor.mk [600, 605] [some 100, some 105] (-1)).advance_to 601).value 0
        = some 100
    ∧ (((SeriesCursor.mk [600, 605] [some 100, some 105] (-1)).advance_to
        601).advance_to 606).value 0 = some 105 := by
  refine ⟨?_, by decide, by decide⟩
  intro times values bts hst hsb i hi
  have hfold := fold_idx times values bts hsb (-1) (by omega)
    (by intro b _; omega) i hi
  have hfoldeq : (bts.take (i + 1)).foldl SeriesCursor.advance_to
      ⟨times, values, -1⟩
      = ⟨times, values, (countLE times (bts.get ⟨i, hi⟩) : Int) - 1⟩ :=
    SeriesCursor.ext (foldl_advance_times (bts.take (i + 1)) ⟨times, values, -1⟩)
      (foldl_advance_values (bts.take (i + 1)) ⟨times, values, -1⟩) hfold
  refine ⟨?_, le_of_lt_countLE times _, lt_of_countLE_le times _ hst⟩
  rw [asOfReads_get? bts ⟨times, values, -1⟩ i hi, hfoldeq, value_at]

/-- Witness for C1's general part at the concrete 10:00/10:05 series and
10:01/10:06 bars: the read at the second bar is the 10:05 value. -/
theorem asof_join_correct_witness :
    (asOfReads ⟨[600, 605], [some 100, some 105], -1⟩ [601, 606]).get? 1 =
      some (some 105) := by
  have h := asof_join_correct.1 [600, 605] [some 100, some 105] [601, 606]
    (by norm_num [List.chain'_cons]) (by norm_num [List.chain'_cons]) 1 (by norm_num)
  simpa using h.1

end SignalEngine
